import Mathlib

/-!
Verification of the source-model extractor of `sphinx-autodoc-vyper`.

This file is a shallow embedding of `sphinx_autodoc_vyper/parser.py` (and of
the function-section ordering of `generator.py`).  Python strings are
embedded as `List Char`; the regular expressions of the source are embedded
as deterministic scanners (each concrete pattern of the source backtracks
trivially, so its `re.finditer` behaviour is a deterministic left-to-right
scan); Python exceptions are embedded as an explicit `Except` error value.
-/

namespace SphinxAutodocVyper

/-- The Python exceptions that the embedded code can raise. -/
inductive PyError
  | nameError
  | indexError
  | valueError
  | assertionError
  | attributeError
deriving DecidableEq

instance {ε α : Type} [DecidableEq ε] [DecidableEq α] : DecidableEq (Except ε α)
  | .ok a, .ok b =>
    if h : a = b then .isTrue (by rw [h]) else .isFalse fun hh => h (Except.ok.inj hh)
  | .error a, .error b =>
    if h : a = b then .isTrue (by rw [h]) else .isFalse fun hh => h (Except.error.inj hh)
  | .ok _, .error _ => .isFalse fun hh => Except.noConfusion hh
  | .error _, .ok _ => .isFalse fun hh => Except.noConfusion hh

/-- Source text: a Python `str`, embedded as a list of characters. -/
abbrev Text := List Char

/-- Python's `\w` character class (ASCII range; all inputs considered here are ASCII). -/
def isWordChar (c : Char) : Bool := c.isAlphanum || c = '_'

/-- Python's `\s` character class, which is also the default set stripped by `str.strip`. -/
def pyIsSpace (c : Char) : Bool :=
  c = ' ' || c = '\t' || c = '\n' || c = '\r' || c = '\x0b' || c = '\x0c'

/-- Python `str.lstrip()`. -/
def pyLStrip (s : Text) : Text := s.dropWhile pyIsSpace

/-- Python `str.rstrip()`. -/
def pyRStrip (s : Text) : Text := (s.reverse.dropWhile pyIsSpace).reverse

/-- Python `str.strip()`. -/
def pyStrip (s : Text) : Text := pyRStrip (pyLStrip s)

/-- Python `str.split(sep)` for a one-character separator: the result always has
one more part than there are separator occurrences, and never is `[]`. -/
def pySplit (sep : Char) : Text → List Text
  | [] => [[]]
  | c :: cs =>
    match pySplit sep cs with
    | t :: ts => if c = sep then [] :: t :: ts else (c :: t) :: ts
    | [] => [[c]]

/-- Python `str.splitlines()` for texts whose only line separator is `'\n'`
(the only separator occurring in the inputs considered here): like splitting
on `'\n'`, except that a trailing separator produces no trailing empty line. -/
def pySplitLines (s : Text) : List Text :=
  let ts := pySplit '\n' s
  if ts.getLast? = some [] then ts.dropLast else ts

/-- Body of a Python decimal integer literal (after sign): digits, with single
underscores allowed only between digits. -/
def pyIntBody : Text → Bool
  | [] => false
  | [c] => c.isDigit
  | c :: '_' :: cs => c.isDigit && pyIntBody cs
  | c :: cs => c.isDigit && pyIntBody cs

/-- Magnitude of a digits/underscore body. -/
def pyIntVal (s : Text) : Nat :=
  (s.filter (· ≠ '_')).foldl (fun a c => 10 * a + (c.toNat - 48)) 0

/-- Python `int(s)` for decimal text: strips whitespace, accepts an optional
sign, and otherwise raises `ValueError` (modelled as `none`). -/
def pyInt (s : Text) : Option Int :=
  match pyStrip s with
  | '+' :: r => if pyIntBody r then some (pyIntVal r) else none
  | '-' :: r => if pyIntBody r then some (-(pyIntVal r : Int)) else none
  | r => if pyIntBody r then some ((pyIntVal r : Int)) else none

/-- `valid_ints = {f"int{8 * (i+1)}" for i in range(32)}` (parser.py line 13). -/
def valid_ints : List Text := (List.range 32).map fun i => "int".data ++ (Nat.repr (8 * (i + 1))).data

/-- `valid_uints = {f"uint{8 * (i+1)}" for i in range(32)}` (parser.py line 14). -/
def valid_uints : List Text := (List.range 32).map fun i => "uint".data ++ (Nat.repr (8 * (i + 1))).data

/-- `VALID_VYPER_TYPES` (parser.py line 15).  The Python value is a set used
only for membership tests, so a list is an adequate embedding. -/
def VALID_VYPER_TYPES : List Text :=
  valid_ints ++ valid_uints ++ ["address".data, "bool".data, "Bytes".data, "String".data]

/-- `t in VALID_VYPER_TYPES`. -/
def validType (t : Text) : Bool := VALID_VYPER_TYPES.contains t

/-- `s.endswith(suffix)`. -/
def pyEndsWith (suffix s : Text) : Bool := suffix.reverse.isPrefixOf s.reverse

/-- Python `needle in haystack` (substring test). -/
def containsSub (p : Text) : Text → Bool
  | [] => p.isPrefixOf []
  | c :: cs => p.isPrefixOf (c :: cs) || containsSub p cs

/-! ## Data model (the dataclasses of parser.py) -/

/-- `Constant` (parser.py lines 40-53).  `type` and `value` are `Option`al
because `Parameter.__post_init__` builds a constant reference with
`type=None, value=None`. -/
structure Constant where
  name : Text
  type : Option Text
  value : Option Text
deriving DecidableEq

/-- The `Type = Union[str, Tuple, DynArray]` union of parser.py line 100.
`tup` holds the (already stripped, per `Tuple.__post_init__`) member texts;
`dynArray`'s `maxLength` is `Union[int, Constant]` exactly as in `DynArray`. -/
inductive VyType
  | str (s : Text)
  | tup (types : List Text)
  | dynArray (type : Text) (maxLength : Int ⊕ Constant)
deriving DecidableEq

/-- `Parameter` (parser.py lines 103-121), after `__post_init__` resolution. -/
structure Parameter where
  name : Text
  type : VyType
deriving DecidableEq

/-- `Variable` (parser.py lines 56-66). -/
structure Variable where
  name : Text
  type : Text
  visibility : Text
deriving DecidableEq

/-- `EventParameter` (parser.py lines 132-142). -/
structure EventParameter where
  name : Text
  type : Text
  indexed : Bool
deriving DecidableEq

/-- `Event` (parser.py lines 145-150). -/
structure Event where
  name : Text
  params : List EventParameter
deriving DecidableEq

/-- `Function` (parser.py lines 161-175), after `__post_init__`: the return
type is either the raw string or a resolved `Tuple`. -/
structure Function where
  name : Text
  params : List Parameter
  returnType : Option VyType
  docstring : Option Text
deriving DecidableEq

/-- `Tuple.__post_init__` (parser.py lines 75-82): strips every member text
(the validity warnings do not change the stored value). -/
def Tuple.postInit (types : List Text) : List Text := types.map pyStrip

/-- The type-resolution step of `Parameter.__post_init__` (parser.py lines
110-121).  Returns the resolved type together with whether a
`logger.warning` was emitted; Python exceptions become `.error`:
`assert self.type.endswith("]")` raises `AssertionError`,
`.split("[")[1]` raises `IndexError` when there is no `[`, and unpacking
`type, max_length = ....split(",")` raises `ValueError` unless the split
has exactly two parts (`int(max_length)`'s `ValueError` is caught by the
`try`/`except` and produces the `Constant` reference branch). -/
def Parameter.resolveType (tp : Text) : Except PyError (VyType × Bool) :=
  if "DynArray".data.isPrefixOf tp then
    if !pyEndsWith "]".data tp then .error .assertionError
    else
      match (pySplit '[' tp.dropLast).get? 1 with
      | none => .error .indexError
      | some inner =>
        match pySplit ',' inner with
        | [t, m] =>
          match pyInt m with
          | some n => .ok (.dynArray t (.inl n), !validType t)
          | none => .ok (.dynArray t (.inr ⟨pyStrip m, none, none⟩), !validType t)
        | _ => .error .valueError
  else if validType tp then .ok (.str tp, false)
  else .ok (.str tp, true)

/-- The return-type step of `Function.__post_init__` (parser.py lines
170-175): a parenthesized text becomes `Tuple(self.return_type[1:-1].split(","))`
(note: a plain `split`, not a bracket-aware one), anything else stays a
string.  The `Bool` records whether a warning was emitted. -/
def Function.resolveReturn (rt : Text) : VyType × Bool :=
  if "(".data.isPrefixOf rt then
    let types := Tuple.postInit (pySplit ',' (rt.drop 1).dropLast)
    (.tup types, types.any fun t => !validType t)
  else if validType rt then (.str rt, false)
  else (.str rt, true)

/-! ## Regex scanners

Each concrete pattern of parser.py is embedded as a deterministic
match-at-position function returning the consumed text (or captured groups)
and the remaining text, plus a generic `re.finditer` loop that scans
left-to-right and resumes after each non-overlapping match. -/

/-- Maximal `\w*` prefix and the rest. -/
def takeWord (s : Text) : Text × Text := (s.takeWhile isWordChar, s.dropWhile isWordChar)

/-- Maximal `\s*` prefix and the rest. -/
def takeSpaces (s : Text) : Text × Text := (s.takeWhile pyIsSpace, s.dropWhile pyIsSpace)

/-- The `re.finditer` scan loop: try the matcher at every position, emit each
match and resume right after it.  Fueled so that it is structurally
recursive; `pyFinditer` supplies fuel `s.length`, which suffices for any
matcher that consumes at least one character. -/
def scanGo (f : Text → Option (α × Text)) : Nat → Text → List α
  | 0, _ => []
  | _ + 1, [] => []
  | n + 1, c :: cs =>
    match f (c :: cs) with
    | some (a, r) => a :: scanGo f n r
    | none => scanGo f n cs

/-- `re.finditer(pattern, s)` for a matcher `f`. -/
def pyFinditer (f : Text → Option (α × Text)) (s : Text) : List α := scanGo f s.length s

/-- Second alternative of `PARAM_PATTERN` (parser.py line 23), `\w+:\s*\w+`,
after the shared `\w+:\s*` prefix has already been consumed as `w`/`sp`. -/
def matchParamSecond (w sp r3 : Text) : Option (Text × Text) :=
  let (w2, r4) := takeWord r3
  if w2.isEmpty then none else some (w ++ ':' :: (sp ++ w2), r4)

/-- First alternative of `PARAM_PATTERN`, `\w+:\s*DynArray\[[^\]]+\]`, after
the shared `\w+:\s*` prefix: the literal `DynArray[`, then at least one
non-`]` character, then `]`. -/
def matchParamFirst (w sp r3 : Text) : Option (Text × Text) :=
  if "DynArray[".data.isPrefixOf r3 then
    let inner := (r3.drop 9).takeWhile (· ≠ ']')
    let rest := (r3.drop 9).dropWhile (· ≠ ']')
    if inner.isEmpty then none
    else if rest.isEmpty then none
    else some (w ++ ':' :: (sp ++ "DynArray[".data ++ inner ++ [']']), rest.tail)
  else none

/-- One match attempt of `PARAM_PATTERN =
r"(\w+:\s*DynArray\[[^\]]+\]|\w+:\s*\w+)"`: both alternatives start with the
deterministic `\w+:\s*`, then the first alternative is preferred. -/
def matchParamAt (s : Text) : Option (Text × Text) :=
  let (w, r1) := takeWord s
  if w.isEmpty then none
  else
    match r1 with
    | ':' :: r2 =>
      let (sp, r3) := takeSpaces r2
      match matchParamFirst w sp r3 with
      | some res => some res
      | none => matchParamSecond w sp r3
    | _ => none

/-- One match attempt of `EVENT_PATTERN = r"event\s+(\w+)\((.*?)\)"` (no
`re.DOTALL`, so `.` stops at a newline): returns the consumed text. -/
def matchEventAt (s : Text) : Option (Text × Text) :=
  if "event".data.isPrefixOf s then
    let (sp, r2) := takeSpaces (s.drop 5)
    if sp.isEmpty then none
    else
      let (w, r3) := takeWord r2
      if w.isEmpty then none
      else
        match r3 with
        | '(' :: r4 =>
          let inner := r4.takeWhile fun c => !(c = ')' || c = '\n')
          match r4.dropWhile (fun c => !(c = ')' || c = '\n')) with
          | ')' :: r5 => some ("event".data ++ sp ++ w ++ '(' :: (inner ++ [')']), r5)
          | _ => none
        | _ => none
  else none

/-- The groups of one `VARIABLE_PATTERN = r"(\w+):\s*(public\((\w+)\)|(\w+))"`
match: `g2` is the text of the whole alternation group (which always
participates), `g3`/`g4` the inner groups of its two alternatives. -/
structure VarMatch where
  g1 : Text
  g2 : Text
  g3 : Option Text
  g4 : Option Text
deriving DecidableEq

/-- First alternative `public\((\w+)\)` of the `VARIABLE_PATTERN` alternation. -/
def matchVariableFirst (w r3 : Text) : Option (VarMatch × Text) :=
  if "public(".data.isPrefixOf r3 then
    let (w2, r5) := takeWord (r3.drop 7)
    if w2.isEmpty then none
    else
      match r5 with
      | ')' :: r6 => some (⟨w, "public(".data ++ w2 ++ [')'], some w2, none⟩, r6)
      | _ => none
  else none

/-- Second alternative `(\w+)` of the `VARIABLE_PATTERN` alternation. -/
def matchVariableBare (w r3 : Text) : Option (VarMatch × Text) :=
  let (w2, r4) := takeWord r3
  if w2.isEmpty then none else some (⟨w, w2, none, some w2⟩, r4)

/-- One match attempt of `VARIABLE_PATTERN` (parser.py line 19). -/
def matchVariableAt (s : Text) : Option (VarMatch × Text) :=
  let (w, r1) := takeWord s
  if w.isEmpty then none
  else
    match r1 with
    | ':' :: r2 =>
      let (_sp, r3) := takeSpaces r2
      match matchVariableFirst w r3 with
      | some res => some res
      | none => matchVariableBare w r3
    | _ => none

/-- One match attempt of `CONSTANT_PATTERN =
r"(\w+):\s*constant\((\w+)\)\s*=\s*(.*?)$"` under `re.MULTILINE` (the lazy
`(.*?)$` captures up to the next newline or the end): returns the three
captured groups. -/
def matchConstantAt (s : Text) : Option ((Text × Text × Text) × Text) :=
  let (w, r1) := takeWord s
  if w.isEmpty then none
  else
    match r1 with
    | ':' :: r2 =>
      let (_sp, r3) := takeSpaces r2
      if "constant(".data.isPrefixOf r3 then
        let (w2, r5) := takeWord (r3.drop 9)
        if w2.isEmpty then none
        else
          match r5 with
          | ')' :: r6 =>
            let (_sp2, r7) := takeSpaces r6
            match r7 with
            | '=' :: r8 =>
              let (_sp3, r9) := takeSpaces r8
              some ((w, w2, r9.takeWhile (· ≠ '\n')), r9.dropWhile (· ≠ '\n'))
            | _ => none
          | _ => none
      else none
    | _ => none

/-! ## The extractor methods of `VyperParser` -/

/-- Left-to-right effectful map over `Except`: the Python `for` loops below
stop at (and return) the first raised exception. -/
def exceptMapM (f : α → Except PyError β) : List α → Except PyError (List β)
  | [] => .ok []
  | a :: l =>
    match f a with
    | .error e => .error e
    | .ok b => (exceptMapM f l).map (b :: ·)

namespace VyperParser

/-- One parameter of `VyperParser._parse_params` (parser.py lines 355-368):
`name, type_str = param.group().split(":")` (a `ValueError` unless the match
has exactly one colon), then `type_str[1]` (an `IndexError` on a type text
shorter than two characters), then either the `Tuple` branch — in which case
`Parameter.__post_init__` would call `.startswith` on a `Tuple` object and
raise `AttributeError`; the branch is unreachable from `PARAM_PATTERN`
matches — or `Parameter(...)` whose `__post_init__` is `Parameter.resolveType`. -/
def parseParamOne (m : Text) : Except PyError Parameter :=
  match pySplit ':' m with
  | [n, t] =>
    let ts := pyStrip t
    match ts.get? 1 with
    | none => .error .indexError
    | some c1 =>
      if c1 = '(' then .error .attributeError
      else (Parameter.resolveType ts).map fun pt => ⟨pyStrip n, pt.1⟩
  | _ => .error .valueError

/-- `VyperParser._parse_params` (parser.py lines 355-368). -/
def parseParams (s : Text) : Except PyError (List Parameter) :=
  if s.isEmpty then .ok []
  else exceptMapM parseParamOne (pyFinditer matchParamAt s)

/-- One line of `VyperParser._parse_event_params` (parser.py lines 370-382):
`name, type = param_str.strip().split(":")`, strip the type, and if the text
contains `"indexed"` then it must be exactly the `indexed(...)` wrapper
(`assert`, so `AssertionError` otherwise) and the inner text `type[8:-1]` is
kept with `indexed = True`. -/
def parseEventParamLine (line : Text) : Except PyError EventParameter :=
  match pySplit ':' (pyStrip line) with
  | [n, t] =>
    let t1 := pyStrip t
    if containsSub "indexed".data t1 then
      if "indexed(".data.isPrefixOf t1 && pyEndsWith ")".data t1 then
        .ok ⟨pyStrip n, (t1.drop 8).dropLast, true⟩
      else .error .assertionError
    else .ok ⟨pyStrip n, t1, false⟩
  | _ => .error .valueError

/-- `VyperParser._parse_event_params` (parser.py lines 370-382). -/
def parseEventParams (s : Text) : Except PyError (List EventParameter) :=
  exceptMapM parseEventParamLine (pySplit '\n' s)

/-- `VyperParser._extract_events` (parser.py lines 315-324).  The method is a
`@staticmethod`, yet its body reads `self._parse_event_params(...)`: `self`
is an unbound name there, so the list comprehension raises `NameError` as
soon as it evaluates its body for the first `EVENT_PATTERN` match; with no
match the comprehension is empty and returns `[]`. -/
def extractEvents (content : Text) : Except PyError (List Event) :=
  match pyFinditer matchEventAt content with
  | [] => .ok []
  | _ :: _ => .error .nameError

/-- The `Variable(...)` construction of `VyperParser._extract_variables`
(parser.py lines 293-302): the type comes from group 3 (public wrapper) or
group 4 (bare), and the visibility test is `"public" if match.group(2) else
"private"` — group 2 is the whole alternation group, which participates in
every match with nonempty text.  (`group(4)` is only read when `group(3)` is
absent, in which case it is present; `getD []` fills the impossible case.) -/
def toVariable (m : VarMatch) : Variable :=
  ⟨pyStrip m.g1,
   match m.g3 with
   | some t => pyStrip t
   | none => pyStrip (m.g4.getD []),
   if m.g2.isEmpty then "private".data else "public".data⟩

/-- Whether a stripped line starts a function for the scope filter of
`VyperParser._extract_variables` (parser.py line 281):
`stripped_line.startswith("@") or stripped_line.startswith("def ")`. -/
def isFunctionMarkerLine (s : Text) : Bool :=
  "@".data.isPrefixOf s || "def ".data.isPrefixOf s

/-- The line scan of `VyperParser._extract_variables` (parser.py lines
274-288): one `inside_function` flag, set by a decorator/`def` line, cleared
by a blank line; non-blank lines seen while the flag is clear are kept
(stripped). -/
def contractLevelLines : Bool → List Text → List Text
  | _, [] => []
  | insideFunction, line :: ls =>
    let stripped := pyStrip line
    let inside2 :=
      if isFunctionMarkerLine stripped then true
      else if stripped.isEmpty then false
      else insideFunction
    if !inside2 && !stripped.isEmpty then stripped :: contractLevelLines inside2 ls
    else contractLevelLines inside2 ls

/-- `VyperParser._extract_variables` (parser.py lines 270-302). -/
def extractVariables (content : Text) : List Variable :=
  let filtered := List.intercalate ['\n'] (contractLevelLines false (pySplitLines content))
  (pyFinditer matchVariableAt filtered).map toVariable

/-- `VyperParser._extract_constants` (parser.py lines 259-268). -/
def extractConstants (content : Text) : List Constant :=
  (pyFinditer matchConstantAt content).map fun g =>
    ⟨pyStrip g.1, some (pyStrip g.2.1), some (pyStrip g.2.2)⟩

/-- One `FUNCTION_PATTERN` match (parser.py line 22), by captured group:
group 1 `(external|internal)`, group 2 the name, group 3 the parameter list,
group 4 the optional `\s*->\s*[^:]+` return annotation (arrow included),
group 5 the optional `"""..."""` docstring (quotes included). -/
structure FunctionMatch where
  decorator : Text
  name : Text
  paramsStr : Text
  returnType : Option Text
  docstring : Option Text

/-- Python `str.replace("->", "")`: remove every (left-to-right,
non-overlapping) occurrence. -/
def pyReplaceArrow : Text → Text
  | '-' :: '>' :: r => pyReplaceArrow r
  | c :: r => c :: pyReplaceArrow r
  | [] => []

/-- The body of the `_extract_functions` loop for one match (parser.py lines
332-346): strip the groups, build the `Function` (its `__post_init__`
resolves the return type), parse the parameters. -/
def mkFunction (m : FunctionMatch) : Except PyError Function :=
  (parseParams (pyStrip m.paramsStr)).map fun ps =>
    { name := pyStrip m.name
      params := ps
      returnType := m.returnType.map fun g => (Function.resolveReturn (pyStrip (pyReplaceArrow g))).1
      docstring := m.docstring.map fun d => pyStrip (((d.drop 3).dropLast).dropLast.dropLast) }

/-- `VyperParser._extract_functions` (parser.py lines 326-353), over the list
of `FUNCTION_PATTERN` matches in source order: each function is appended to
the external or the internal list according to group 1. -/
def extractFunctions : List FunctionMatch → Except PyError (List Function × List Function)
  | [] => .ok ([], [])
  | m :: ms =>
    match mkFunction m with
    | .error e => .error e
    | .ok f =>
      match extractFunctions ms with
      | .error e => .error e
      | .ok (ext, intl) =>
        if pyStrip m.decorator = "external".data then .ok (f :: ext, intl)
        else .ok (ext, f :: intl)

end VyperParser

/-- The function-section order of `SphinxGenerator._generate_contract_docs`
(generator.py lines 106-114): all external functions are rendered, then all
internal ones. -/
def SphinxGenerator.functionDocsOrder (ext intl : List Function) : List Function := ext ++ intl

/-! ## Spec-side definitions

Used only to state refinement claims against the code; these follow the
spec's words, not the source. -/

/-- Modelled from the spec: the number of top-level commas of a
comma-separated type list, "where commas nested inside brackets do not
count as separators" — a comma counts only at bracket depth 0. -/
def specTopLevelCommas : Text → Nat → Nat
  | [], _ => 0
  | c :: cs, d =>
    if c = '[' ∨ c = '(' then specTopLevelCommas cs (d + 1)
    else if c = ']' ∨ c = ')' then specTopLevelCommas cs (d - 1)
    else if c = ',' ∧ d = 0 then specTopLevelCommas cs d + 1
    else specTopLevelCommas cs d

/-- Modelled from the spec: "the number of top-level comma-separated
elements" of a type list. -/
def specTopLevelElementCount (s : Text) : Nat := specTopLevelCommas s 0 + 1

/-- The shape of one top-level `name: type` entry of a parameter list, as the
claims quantify over parameter lists: the declared type text is either a
plain (scalar) name or a dynamic-array text `DynArray[elem, bound]`. -/
inductive ParamTypeText
  | scalar (t : Text)
  | dyn (elem bound : Text)
deriving DecidableEq

/-- One top-level `name: type` entry of a parameter list. -/
structure ParamEntry where
  name : Text
  type : ParamTypeText
deriving DecidableEq

/-- The source text of a parameter's type. -/
def renderParamType : ParamTypeText → Text
  | .scalar t => t
  | .dyn e b => "DynArray[".data ++ (e ++ ',' :: ' ' :: (b ++ [']']))

/-- The source text `name: type` of one parameter entry. -/
def renderParamEntry (e : ParamEntry) : Text :=
  e.name ++ ':' :: ' ' :: renderParamType e.type

/-- The source text of a comma-separated parameter list. -/
def renderParamList : List ParamEntry → Text
  | [] => []
  | [e] => renderParamEntry e
  | e :: es => renderParamEntry e ++ ',' :: ' ' :: renderParamList es

/-- A nonempty text of `\w` characters. -/
def wordText (t : Text) : Prop := t ≠ [] ∧ ∀ c ∈ t, isWordChar c = true

instance (t : Text) : Decidable (wordText t) :=
  inferInstanceAs (Decidable (t ≠ [] ∧ ∀ c ∈ t, isWordChar c = true))

/-- Well-formedness of an entry's type text: identifier-shaped pieces. -/
def ParamTypeText.wf : ParamTypeText → Prop
  | .scalar t => wordText t
  | .dyn e b => wordText e ∧ wordText b

instance (t : ParamTypeText) : Decidable t.wf :=
  match t with
  | .scalar t => inferInstanceAs (Decidable (wordText t))
  | .dyn e b => inferInstanceAs (Decidable (wordText e ∧ wordText b))

/-- Well-formedness of one entry. -/
def ParamEntry.wf (e : ParamEntry) : Prop := wordText e.name ∧ e.type.wf

instance (e : ParamEntry) : Decidable e.wf :=
  inferInstanceAs (Decidable (wordText e.name ∧ e.type.wf))

/-- The extra conditions under which `_parse_params` raises no exception on
an entry: a scalar type text must be at least two characters long (claim C9
covers the one-character case) and must not begin with the dynamic-array tag
(claim C6's counterexample covers that case). -/
def ParamTypeText.parseable : ParamTypeText → Prop
  | .scalar t => 2 ≤ t.length ∧ "DynArray".data.isPrefixOf t = false
  | .dyn _ _ => True

instance (t : ParamTypeText) : Decidable t.parseable :=
  match t with
  | .scalar t => inferInstanceAs (Decidable (2 ≤ t.length ∧ "DynArray".data.isPrefixOf t = false))
  | .dyn _ _ => inferInstanceAs (Decidable True)

/-- The dynamic-array bound stored by `Parameter.__post_init__` for a bound
text `m`: the parsed integer, or a name-only `Constant` reference. -/
def expectedParamBound (m : Text) : Int ⊕ Constant :=
  match pyInt m with
  | some k => .inl k
  | none => .inr ⟨pyStrip m, none, none⟩

/-- The `Parameter` that `_parse_params` produces for one well-formed entry. -/
def expectedParam (e : ParamEntry) : Parameter :=
  match e.type with
  | .scalar t => ⟨e.name, .str t⟩
  | .dyn el b => ⟨e.name, .dynArray el (expectedParamBound b)⟩

/-! ## Basic lemmas about the Python-string helpers -/

theorem length_dropWhile_le' (p : Char → Bool) (l : Text) :
    (l.dropWhile p).length ≤ l.length := by
  induction l with
  | nil => simp
  | cons a as ih =>
    rw [List.dropWhile_cons]
    by_cases h : p a = true
    · simp [h]
      omega
    · simp [h]

theorem pySplit_ne_nil (sep : Char) (s : Text) : pySplit sep s ≠ [] := by
  induction s with
  | nil => simp [pySplit]
  | cons c cs ih =>
    simp only [pySplit]
    match h : pySplit sep cs with
    | [] => exact absurd h ih
    | t :: ts => by_cases hc : c = sep <;> simp [hc]

theorem length_pySplit (sep : Char) (s : Text) :
    (pySplit sep s).length = s.count sep + 1 := by
  induction s with
  | nil => simp [pySplit]
  | cons c cs ih =>
    simp only [pySplit]
    match h : pySplit sep cs with
    | [] => exact absurd h (pySplit_ne_nil sep cs)
    | t :: ts =>
      rw [h] at ih
      by_cases hc : c = sep
      · subst hc
        simp [List.count_cons] at ih ⊢
        omega
      · simp [hc, List.count_cons, beq_false_of_ne hc] at ih ⊢
        omega

theorem pySplit_no_sep (sep : Char) (s : Text) (h : sep ∉ s) : pySplit sep s = [s] := by
  induction s with
  | nil => rfl
  | cons c cs ih =>
    have hc : ¬c = sep := fun hh => h (hh ▸ List.mem_cons_self c cs)
    simp only [pySplit]
    rw [ih fun hm => h (List.mem_cons_of_mem c hm)]
    simp [hc]

theorem pySplit_append_sep (sep : Char) (a b : Text) (h : sep ∉ a) :
    pySplit sep (a ++ sep :: b) = a :: pySplit sep b := by
  induction a with
  | nil =>
    simp only [List.nil_append, pySplit]
    match hh : pySplit sep b with
    | [] => exact absurd hh (pySplit_ne_nil sep b)
    | t :: ts => simp
  | cons c cs ih =>
    have hc : ¬c = sep := fun hh => h (hh ▸ List.mem_cons_self c cs)
    simp only [List.cons_append, pySplit, List.append_eq]
    rw [ih fun hm => h (List.mem_cons_of_mem c hm)]
    simp [hc]

theorem isPrefixOf_append_self (p t : Text) : p.isPrefixOf (p ++ t) = true := by
  induction p with
  | nil => simp [List.isPrefixOf]
  | cons c cs ih => simp [List.isPrefixOf, ih]

theorem pyEndsWith_concat (c : Char) (y : Text) : pyEndsWith [c] (y ++ [c]) = true := by
  simp [pyEndsWith, List.isPrefixOf]

theorem validType_eq_true (t : Text) (h : t ∈ VALID_VYPER_TYPES) : validType t = true := by
  simpa [validType] using h

theorem validType_eq_false (t : Text) (h : t ∉ VALID_VYPER_TYPES) : validType t = false := by
  simpa [validType] using h

theorem word_not_space (c : Char) (h : isWordChar c = true) : pyIsSpace c = false := by
  by_contra hs
  rw [Bool.not_eq_false] at hs
  simp only [pyIsSpace, Bool.or_eq_true, decide_eq_true_eq] at hs
  rcases hs with ((((h1 | h1) | h1) | h1) | h1) | h1 <;> subst h1 <;> exact absurd h (by decide)

theorem word_not_mem (t : Text) (h : ∀ c ∈ t, isWordChar c = true) (c0 : Char)
    (hc0 : isWordChar c0 = false) : c0 ∉ t := fun hm => by
  have hw := h c0 hm
  rw [hw] at hc0
  exact Bool.noConfusion hc0

theorem pyLStrip_eq_self (s : Text) (h : ∀ c, s.head? = some c → pyIsSpace c = false) :
    pyLStrip s = s := by
  cases s with
  | nil => rfl
  | cons c cs => simp [pyLStrip, List.dropWhile_cons, h c rfl]

theorem pyRStrip_eq_self (s : Text) (h : ∀ c, s.getLast? = some c → pyIsSpace c = false) :
    pyRStrip s = s := by
  have hrev := pyLStrip_eq_self s.reverse fun c hc => h c (by rwa [List.head?_reverse] at hc)
  unfold pyRStrip
  unfold pyLStrip at hrev
  rw [hrev, List.reverse_reverse]

theorem pyStrip_eq_self (s : Text) (h1 : ∀ c, s.head? = some c → pyIsSpace c = false)
    (h2 : ∀ c, s.getLast? = some c → pyIsSpace c = false) : pyStrip s = s := by
  unfold pyStrip
  rw [pyLStrip_eq_self s h1, pyRStrip_eq_self s h2]

theorem mem_of_getLast?_eq (t : Text) (c : Char) (hc : t.getLast? = some c) : c ∈ t := by
  rw [← List.head?_reverse] at hc
  exact List.mem_reverse.mp (List.mem_of_mem_head? hc)

theorem pyStrip_word (t : Text) (h : ∀ c ∈ t, isWordChar c = true) : pyStrip t = t :=
  pyStrip_eq_self t
    (fun c hc => word_not_space c (h c (List.mem_of_mem_head? hc)))
    (fun c hc => word_not_space c (h c (mem_of_getLast?_eq t c hc)))

theorem pyStrip_cons_space (u : Text) : pyStrip (' ' :: u) = pyStrip u := by
  unfold pyStrip pyLStrip
  rw [List.dropWhile_cons]
  simp [pyIsSpace]

theorem containsSub_of_isPrefixOf (p s : Text) (h : p.isPrefixOf s = true) :
    containsSub p s = true := by
  cases s with
  | nil => simpa [containsSub] using h
  | cons c cs => simp [containsSub, h]

/-! ## Lemmas about the `PARAM_PATTERN` scanner -/

theorem takeWhile_append_stop (p : Char → Bool) (t : Text) (c : Char) (r : Text)
    (ht : ∀ x ∈ t, p x = true) (hc : p c = false) :
    (t ++ c :: r).takeWhile p = t ∧ (t ++ c :: r).dropWhile p = c :: r := by
  induction t with
  | nil => simp [List.takeWhile_cons, List.dropWhile_cons, hc]
  | cons a as ih =>
    have ha := ht a (List.mem_cons_self a as)
    obtain ⟨h1, h2⟩ := ih fun x hx => ht x (List.mem_cons_of_mem a hx)
    simp [List.takeWhile_cons, List.dropWhile_cons, ha, h1, h2]

theorem takeWhile_all_eq (p : Char → Bool) (t : Text) (ht : ∀ x ∈ t, p x = true) :
    t.takeWhile p = t ∧ t.dropWhile p = [] := by
  induction t with
  | nil => simp
  | cons a as ih =>
    have ha := ht a (List.mem_cons_self a as)
    obtain ⟨h1, h2⟩ := ih fun x hx => ht x (List.mem_cons_of_mem a hx)
    simp [List.takeWhile_cons, List.dropWhile_cons, ha, h1, h2]

theorem eq_append_of_isPrefixOf (p s : Text) (h : p.isPrefixOf s = true) :
    s = p ++ s.drop p.length := by
  induction p generalizing s with
  | nil => simp
  | cons a as ih =>
    cases s with
    | nil => simp [List.isPrefixOf] at h
    | cons b bs =>
      simp only [List.isPrefixOf, Bool.and_eq_true, beq_iff_eq] at h
      obtain ⟨rfl, h2⟩ := h
      simpa using ih bs h2

/-- A pattern that contains a non-word character cannot match starting at a
word-character text `t` whose continuation `rest` starts with a character
that occurs nowhere in the pattern. -/
theorem isPrefixOf_eq_false_of_word_boundary (p t rest : Text) (j : Nat) (hj : j < p.length)
    (hjw : isWordChar (p.get ⟨j, hj⟩) = false)
    (ht : ∀ x ∈ t, isWordChar x = true)
    (hrest : ∀ c, rest.head? = some c → c ∉ p) :
    p.isPrefixOf (t ++ rest) = false := by
  by_contra hcon
  rw [Bool.not_eq_false, List.isPrefixOf_iff_prefix] at hcon
  cases hrest0 : rest with
  | nil =>
    subst hrest0
    rw [List.append_nil] at hcon
    have hlen : p.length ≤ t.length := hcon.length_le
    have hj2 : j < t.length := Nat.lt_of_lt_of_le hj hlen
    have := List.IsPrefix.getElem hcon hj
    have hw := ht t[j] (List.getElem_mem hj2)
    rw [← this] at hw
    rw [List.get_eq_getElem] at hjw
    rw [hjw] at hw
    cases hw
  | cons c r' =>
    subst hrest0
    by_cases hjt : j < t.length
    · have hj3 : j < (t ++ c :: r').length := by
        simp
        omega
      have hgt : (t ++ c :: r')[j] = t[j] := List.getElem_append_left hjt
      have := List.IsPrefix.getElem hcon hj
      have hw := ht t[j] (List.getElem_mem hjt)
      rw [← hgt, ← this] at hw
      rw [List.get_eq_getElem] at hjw
      rw [hjw] at hw
      cases hw
    · have hle : t.length ≤ j := Nat.le_of_not_lt hjt
      have hlt : t.length < p.length := Nat.lt_of_le_of_lt hle hj
      have hi2 : t.length < (t ++ c :: r').length := by simp
      have hgt : (t ++ c :: r')[t.length] = c := by
        rw [List.getElem_append_right (Nat.le_refl t.length)]
        simp
      have := List.IsPrefix.getElem hcon hlt
      rw [hgt] at this
      exact hrest c rfl (this ▸ List.getElem_mem hlt)

theorem matchParamAt_none_of_not_word (c : Char) (cs : Text) (hc : isWordChar c = false) :
    matchParamAt (c :: cs) = none := by
  unfold matchParamAt takeWord
  simp [List.takeWhile_cons, hc]


theorem matchParamFirst_rest_le (w sp r3 m r : Text)
    (h : matchParamFirst w sp r3 = some (m, r)) : r.length ≤ r3.length := by
  unfold matchParamFirst at h
  dsimp only at h
  split at h
  · split at h
    · cases h
    · split at h
      · cases h
      · injection h with h1
        have hr : r = ((r3.drop 9).dropWhile (fun x => decide (x ≠ ']'))).tail :=
          (congrArg Prod.snd h1).symm
        have h2 : ((r3.drop 9).dropWhile (fun x => decide (x ≠ ']'))).length ≤
            (r3.drop 9).length := length_dropWhile_le' _ _
        have h3 : (r3.drop 9).length ≤ r3.length := by
          rw [List.length_drop]
          omega
        have h4 := List.length_tail ((r3.drop 9).dropWhile (fun x => decide (x ≠ ']')))
        rw [hr]
        omega
  · cases h

theorem matchParamSecond_rest_le (w sp r3 m r : Text)
    (h : matchParamSecond w sp r3 = some (m, r)) : r.length ≤ r3.length := by
  unfold matchParamSecond takeWord at h
  dsimp only at h
  split at h
  · cases h
  · injection h with h1
    have hr : r = r3.dropWhile isWordChar := (congrArg Prod.snd h1).symm
    rw [hr]
    exact length_dropWhile_le' _ _

theorem matchParamAt_rest_lt (s m r : Text) (h : matchParamAt s = some (m, r)) :
    r.length < s.length := by
  unfold matchParamAt takeWord takeSpaces at h
  dsimp only at h
  split at h
  · cases h
  · split at h
    · rename_i r2 heq
      have hs : s.length = (s.takeWhile isWordChar).length + r2.length + 1 := by
        conv_lhs => rw [← List.takeWhile_append_dropWhile isWordChar s]
        rw [heq]
        simp only [List.length_append, List.length_cons]
        omega
      have hr3 : (r2.dropWhile pyIsSpace).length ≤ r2.length := length_dropWhile_le' _ _
      cases hmf : matchParamFirst (s.takeWhile isWordChar) (r2.takeWhile pyIsSpace)
          (r2.dropWhile pyIsSpace) with
      | some res =>
        obtain ⟨m', r'⟩ := res
        rw [hmf] at h
        dsimp only at h
        injection h with h1
        have hr : r = r' := (congrArg Prod.snd h1).symm
        subst hr
        have := matchParamFirst_rest_le _ _ _ _ _ hmf
        omega
      | none =>
        rw [hmf] at h
        dsimp only at h
        have := matchParamSecond_rest_le _ _ _ _ _ h
        omega
    · cases h

theorem scanGo_succ_cons {α : Type} (f : Text → Option (α × Text)) (n : Nat) (c : Char)
    (cs : Text) :
    scanGo f (n + 1) (c :: cs) = match f (c :: cs) with
      | some (a, r) => a :: scanGo f n r
      | none => scanGo f n cs := rfl

/-- Fuel does not matter for `scanGo` once it is at least the text length,
for any matcher that strictly consumes. -/
theorem scanGo_fuel_irrel {α : Type} (f : Text → Option (α × Text))
    (hf : ∀ s a r, f s = some (a, r) → r.length < s.length) :
    ∀ n m : Nat, ∀ s : Text, s.length ≤ n → s.length ≤ m → scanGo f n s = scanGo f m s := by
  intro n
  induction n with
  | zero =>
    intro m s hs _
    have : s = [] := List.eq_nil_of_length_eq_zero (Nat.le_zero.1 hs)
    subst this
    cases m <;> rfl
  | succ n ih =>
    intro m s hs hm
    cases s with
    | nil => cases m <;> rfl
    | cons c cs =>
      cases m with
      | zero => simp at hm
      | succ m' =>
        rw [scanGo_succ_cons, scanGo_succ_cons]
        simp only [List.length_cons] at hs hm
        cases hfc : f (c :: cs) with
        | none =>
          dsimp only
          exact ih m' cs (by omega) (by omega)
        | some ar =>
          obtain ⟨a, r⟩ := ar
          dsimp only
          have hlt : r.length < cs.length + 1 := hf _ _ _ hfc
          rw [ih m' r (by omega) (by omega)]

theorem pyFinditer_nil {α : Type} (f : Text → Option (α × Text)) : pyFinditer f [] = [] := rfl

theorem pyFinditer_cons_some {α : Type} (f : Text → Option (α × Text))
    (hf : ∀ s a r, f s = some (a, r) → r.length < s.length)
    (c : Char) (cs : Text) (a : α) (r : Text) (h : f (c :: cs) = some (a, r)) :
    pyFinditer f (c :: cs) = a :: pyFinditer f r := by
  unfold pyFinditer
  have hlt : r.length < cs.length + 1 := hf _ _ _ h
  simp only [List.length_cons]
  rw [scanGo_succ_cons, h]
  dsimp only
  rw [scanGo_fuel_irrel f hf cs.length r.length r (by omega) (Nat.le_refl _)]

theorem pyFinditer_cons_none {α : Type} (f : Text → Option (α × Text))
    (c : Char) (cs : Text) (h : f (c :: cs) = none) :
    pyFinditer f (c :: cs) = pyFinditer f cs := by
  unfold pyFinditer
  simp only [List.length_cons]
  rw [scanGo_succ_cons, h]

theorem pyFinditer_some_of_ne_nil {α : Type} (f : Text → Option (α × Text))
    (hf : ∀ s a r, f s = some (a, r) → r.length < s.length)
    (s : Text) (a : α) (r : Text) (hs : s ≠ []) (h : f s = some (a, r)) :
    pyFinditer f s = a :: pyFinditer f r := by
  cases s with
  | nil => exact absurd rfl hs
  | cons c cs => exact pyFinditer_cons_some f hf c cs a r h

theorem isEmpty_eq_false_of_ne_nil (t : Text) (h : t ≠ []) : t.isEmpty = false := by
  cases t with
  | nil => exact absurd rfl h
  | cons a as => rfl

/-- Matching `PARAM_PATTERN` at `name: X` (single space, word name, `X` not
starting with whitespace) always consumes `name`, the colon and the space,
and continues with the two alternatives on `X`. -/
theorem matchParamAt_shared (name X : Text) (hn : wordText name)
    (hX : ∀ c, X.head? = some c → pyIsSpace c = false) :
    matchParamAt (name ++ ':' :: ' ' :: X)
      = (match matchParamFirst name [' '] X with
         | some res => some res
         | none => matchParamSecond name [' '] X) := by
  obtain ⟨hne, hw⟩ := hn
  unfold matchParamAt takeWord takeSpaces
  dsimp only
  obtain ⟨htw, hdw⟩ := takeWhile_append_stop isWordChar name ':' (' ' :: X) hw (by decide)
  rw [htw, hdw, isEmpty_eq_false_of_ne_nil name hne]
  simp only [Bool.false_eq_true, if_false]
  have hsp : (' ' :: X).takeWhile pyIsSpace = [' '] ∧ (' ' :: X).dropWhile pyIsSpace = X := by
    cases X with
    | nil => exact ⟨rfl, rfl⟩
    | cons x xs =>
      have hx := hX x rfl
      have h1 : pyIsSpace ' ' = true := by decide
      constructor
      · simp only [List.takeWhile_cons, h1, hx, eq_self_iff_true, if_true,
          Bool.false_eq_true, if_false]
      · simp only [List.dropWhile_cons, h1, hx, eq_self_iff_true, if_true,
          Bool.false_eq_true, if_false]
  rw [hsp.1, hsp.2]

/-- A scalar entry `name: t` followed by nothing or by a comma: the second
alternative of `PARAM_PATTERN` matches exactly the entry. -/
theorem matchParamAt_scalar (name t r : Text) (hn : wordText name) (ht : wordText t)
    (hr : r = [] ∨ ∃ r', r = ',' :: r') :
    matchParamAt (name ++ ':' :: ' ' :: (t ++ r)) = some (name ++ ':' :: ' ' :: t, r) := by
  obtain ⟨htne, htw⟩ := ht
  have hhead : ∀ c, (t ++ r).head? = some c → pyIsSpace c = false := by
    intro c hc
    cases t with
    | nil => exact absurd rfl htne
    | cons a as =>
      simp only [List.cons_append, List.head?_cons, Option.some.injEq] at hc
      subst hc
      exact word_not_space a (htw a (List.mem_cons_self a as))
  rw [matchParamAt_shared name (t ++ r) hn hhead]
  have hfirst : matchParamFirst name [' '] (t ++ r) = none := by
    unfold matchParamFirst
    have hbnd : "DynArray[".data.isPrefixOf (t ++ r) = false := by
      apply isPrefixOf_eq_false_of_word_boundary "DynArray[".data t r 8 (by decide) (by decide) htw
      intro c hc
      rcases hr with rfl | ⟨r', rfl⟩
      · cases hc
      · simp only [List.head?_cons, Option.some.injEq] at hc
        subst hc
        decide
    rw [hbnd]
    simp only [Bool.false_eq_true, if_false]
  rw [hfirst]
  dsimp only
  unfold matchParamSecond takeWord
  dsimp only
  have hsplit2 : (t ++ r).takeWhile isWordChar = t ∧ (t ++ r).dropWhile isWordChar = r := by
    rcases hr with rfl | ⟨r', rfl⟩
    · simpa using takeWhile_all_eq isWordChar t htw
    · exact takeWhile_append_stop isWordChar t ',' r' htw (by decide)
  rw [hsplit2.1, hsplit2.2, isEmpty_eq_false_of_ne_nil t htne]
  simp only [Bool.false_eq_true, if_false]
  rfl

/-- A dynamic-array entry `name: DynArray[el, b]`: the first alternative of
`PARAM_PATTERN` matches exactly the entry, whatever follows the bracket. -/
theorem matchParamAt_dyn (name el b r : Text) (hn : wordText name) (hel : wordText el)
    (hb : wordText b) :
    matchParamAt (name ++ ':' :: ' ' :: ("DynArray[".data ++ ((el ++ ',' :: ' ' :: b) ++ ']' :: r)))
      = some (name ++ ':' :: ' ' :: ("DynArray[".data ++ ((el ++ ',' :: ' ' :: b) ++ [']'])), r) := by
  have hhead : ∀ c, ("DynArray[".data ++ ((el ++ ',' :: ' ' :: b) ++ ']' :: r)).head? = some c →
      pyIsSpace c = false := by
    intro c hc
    rw [show ("DynArray[".data ++ ((el ++ ',' :: ' ' :: b) ++ ']' :: r)).head? = some 'D'
      from rfl] at hc
    injection hc with hc
    subst hc
    decide
  rw [matchParamAt_shared name _ hn hhead]
  have hfirst : matchParamFirst name [' ']
      ("DynArray[".data ++ ((el ++ ',' :: ' ' :: b) ++ ']' :: r))
      = some (name ++ ':' :: ([' '] ++ "DynArray[".data ++ (el ++ ',' :: ' ' :: b) ++ [']']), r) := by
    unfold matchParamFirst
    rw [isPrefixOf_append_self "DynArray[".data ((el ++ ',' :: ' ' :: b) ++ ']' :: r)]
    rw [show (9 : Nat) = "DynArray[".data.length from rfl, List.drop_left]
    have hall : ∀ x ∈ el ++ ',' :: ' ' :: b, (decide (x ≠ ']')) = true := by
      intro x hx
      rcases List.mem_append.1 hx with hx | hx
      · have := hel.2 x hx
        simp only [decide_eq_true_eq]
        intro heq
        subst heq
        exact absurd this (by decide)
      rcases List.mem_cons.1 hx with rfl | hx
      · decide
      rcases List.mem_cons.1 hx with rfl | hx
      · decide
      · have := hb.2 x hx
        simp only [decide_eq_true_eq]
        intro heq
        subst heq
        exact absurd this (by decide)
    obtain ⟨htk, hdk⟩ := takeWhile_append_stop (fun x => decide (x ≠ ']'))
      (el ++ ',' :: ' ' :: b) ']' r hall (by decide)
    rw [htk, hdk]
    have hie : (el ++ ',' :: ' ' :: b).isEmpty = false :=
      isEmpty_eq_false_of_ne_nil _ (by
        intro hh
        exact hel.1 (List.append_eq_nil.1 hh).1)
    simp only [eq_self_iff_true, if_true, hie, Bool.false_eq_true, if_false,
      List.isEmpty_cons, List.tail_cons]
  rw [hfirst]
  rfl

/-- One well-formed entry, followed by nothing or by a comma, is matched
exactly by `PARAM_PATTERN`. -/
theorem matchParamAt_entry (e : ParamEntry) (he : e.wf) (r : Text)
    (hr : r = [] ∨ ∃ r', r = ',' :: r') :
    matchParamAt (renderParamEntry e ++ r) = some (renderParamEntry e, r) := by
  obtain ⟨hn, hty⟩ := he
  obtain ⟨name, ty⟩ := e
  cases ty with
  | scalar t =>
    have ht : wordText t := by simpa [ParamTypeText.wf] using hty
    have hsh : renderParamEntry ⟨name, .scalar t⟩ ++ r = name ++ ':' :: ' ' :: (t ++ r) := by
      simp [renderParamEntry, renderParamType]
    rw [hsh, matchParamAt_scalar name t r hn ht hr]
    rfl
  | dyn el b =>
    have hty' : wordText el ∧ wordText b := by simpa [ParamTypeText.wf] using hty
    have hsh : renderParamEntry ⟨name, .dyn el b⟩ ++ r
        = name ++ ':' :: ' ' :: ("DynArray[".data ++ ((el ++ ',' :: ' ' :: b) ++ ']' :: r)) := by
      simp [renderParamEntry, renderParamType]
    rw [hsh, matchParamAt_dyn name el b r hn hty'.1 hty'.2]
    congr 2
    simp [renderParamEntry, renderParamType]

theorem renderParamEntry_ne_nil (e : ParamEntry) (he : e.wf) : renderParamEntry e ≠ [] := by
  obtain ⟨⟨hne, _⟩, _⟩ := he
  unfold renderParamEntry
  cases hname : e.name with
  | nil => exact absurd hname hne
  | cons a as => simp

theorem renderParamList_ne_nil (e : ParamEntry) (es : List ParamEntry) (he : e.wf) :
    renderParamList (e :: es) ≠ [] := by
  cases es with
  | nil => exact renderParamEntry_ne_nil e he
  | cons e2 es2 =>
    rw [show renderParamList (e :: e2 :: es2)
        = renderParamEntry e ++ ',' :: ' ' :: renderParamList (e2 :: es2) from rfl]
    simp

/-- `re.finditer(PARAM_PATTERN, ...)` over the rendering of a well-formed
parameter list returns exactly the rendered entries, in order. -/
theorem pyFinditer_render (es : List ParamEntry) (hwf : ∀ e ∈ es, e.wf) :
    pyFinditer matchParamAt (renderParamList es) = es.map renderParamEntry := by
  induction es with
  | nil => rfl
  | cons e es ih =>
    have he := hwf e (List.mem_cons_self e es)
    have hwf' := fun x hx => hwf x (List.mem_cons_of_mem e hx)
    cases es with
    | nil =>
      have hm := matchParamAt_entry e he [] (Or.inl rfl)
      rw [List.append_nil] at hm
      rw [show renderParamList [e] = renderParamEntry e from rfl]
      rw [pyFinditer_some_of_ne_nil matchParamAt matchParamAt_rest_lt _ _ _
        (renderParamEntry_ne_nil e he) hm]
      rfl
    | cons e2 es2 =>
      have hm := matchParamAt_entry e he (',' :: ' ' :: renderParamList (e2 :: es2))
        (Or.inr ⟨_, rfl⟩)
      rw [show renderParamList (e :: e2 :: es2)
          = renderParamEntry e ++ ',' :: ' ' :: renderParamList (e2 :: es2) from rfl]
      rw [pyFinditer_some_of_ne_nil matchParamAt matchParamAt_rest_lt _ _ _
        (by simp) hm]
      rw [pyFinditer_cons_none matchParamAt ',' _ (matchParamAt_none_of_not_word ',' _ (by decide))]
      rw [pyFinditer_cons_none matchParamAt ' ' _ (matchParamAt_none_of_not_word ' ' _ (by decide))]
      rw [ih hwf']
      rfl

/-- `Parameter.__post_init__` on a dynamic-array type text with bracketless,
commaless element and bound texts. -/
theorem resolveType_dyn (T m : Text) (hT1 : '[' ∉ T) (hT2 : ',' ∉ T)
    (hm1 : '[' ∉ m) (hm2 : ',' ∉ m) :
    Parameter.resolveType ("DynArray[".data ++ T ++ ',' :: m ++ "]".data)
      = .ok (.dynArray T (expectedParamBound m), !validType T) := by
  have hshape : "DynArray[".data ++ T ++ ',' :: m ++ "]".data
      = ("DynArray[".data ++ T ++ ',' :: m) ++ [']'] := by
    simp
  have hpre : "DynArray".data.isPrefixOf ("DynArray[".data ++ T ++ ',' :: m ++ "]".data)
      = true := by
    have : "DynArray[".data ++ T ++ ',' :: m ++ "]".data
        = "DynArray".data ++ ('[' :: (T ++ ',' :: m ++ "]".data)) := by simp
    rw [this]
    exact isPrefixOf_append_self _ _
  have hend : pyEndsWith "]".data ("DynArray[".data ++ T ++ ',' :: m ++ "]".data) = true := by
    rw [hshape]
    exact pyEndsWith_concat ']' _
  have hdrop : ("DynArray[".data ++ T ++ ',' :: m ++ "]".data).dropLast
      = "DynArray[".data ++ T ++ ',' :: m := by
    rw [hshape]
    exact List.dropLast_concat
  have hsplitBr : pySplit '[' ("DynArray[".data ++ T ++ ',' :: m)
      = ["DynArray".data, T ++ ',' :: m] := by
    have harr : "DynArray[".data ++ T ++ ',' :: m
        = "DynArray".data ++ '[' :: (T ++ ',' :: m) := by simp
    rw [harr, pySplit_append_sep '[' _ _ (by decide)]
    rw [pySplit_no_sep '[' _ (by
      intro hmem
      rcases List.mem_append.1 hmem with hmem | hmem
      · exact hT1 hmem
      · rcases List.mem_cons.1 hmem with hmem | hmem
        · exact absurd hmem (by decide)
        · exact hm1 hmem)]
  have hsplitComma : pySplit ',' (T ++ ',' :: m) = [T, m] := by
    rw [pySplit_append_sep ',' _ _ hT2, pySplit_no_sep ',' _ hm2]
  unfold Parameter.resolveType
  rw [hpre, hend, hdrop, hsplitBr]
  simp only [Bool.not_true, Bool.false_eq_true, if_false, if_true, List.get?_cons_succ,
    List.get?_cons_zero, hsplitComma]
  unfold expectedParamBound
  cases hpm : pyInt m <;> rfl

theorem expectedParamBound_cons_space (b : Text) :
    expectedParamBound (' ' :: b) = expectedParamBound b := by
  unfold expectedParamBound
  have h1 : pyInt (' ' :: b) = pyInt b := by
    unfold pyInt
    rw [pyStrip_cons_space]
  rw [h1, pyStrip_cons_space]

theorem exceptMapM_map_ok {α β : Type} (f : α → Except PyError β) (g : α → β) (l : List α)
    (h : ∀ a ∈ l, f a = .ok (g a)) : exceptMapM f l = .ok (l.map g) := by
  induction l with
  | nil => rfl
  | cons a l ih =>
    rw [show exceptMapM f (a :: l) = (match f a with
      | .error e => .error e
      | .ok b => (exceptMapM f l).map (b :: ·)) from rfl]
    rw [h a (List.mem_cons_self a l), ih fun x hx => h x (List.mem_cons_of_mem a hx)]
    rfl

theorem exceptMapM_append_error {α β : Type} (f : α → Except PyError β)
    (l₁ : List α) (bad : α) (l₂ : List α) (err : PyError)
    (h1 : ∀ a ∈ l₁, ∃ b, f a = .ok b) (h2 : f bad = .error err) :
    exceptMapM f (l₁ ++ bad :: l₂) = .error err := by
  induction l₁ with
  | nil =>
    rw [List.nil_append]
    rw [show exceptMapM f (bad :: l₂) = (match f bad with
      | .error e => .error e
      | .ok b => (exceptMapM f l₂).map (b :: ·)) from rfl]
    rw [h2]
  | cons a l ih =>
    rw [List.cons_append]
    rw [show exceptMapM f (a :: (l ++ bad :: l₂)) = (match f a with
      | .error e => .error e
      | .ok b => (exceptMapM f (l ++ bad :: l₂)).map (b :: ·)) from rfl]
    obtain ⟨b, hb⟩ := h1 a (List.mem_cons_self a l)
    rw [hb, ih fun x hx => h1 x (List.mem_cons_of_mem a hx)]
    rfl

/-- `_parse_params`' per-match processing of one well-formed, parseable
entry produces exactly the expected `Parameter`. -/
theorem parseParamOne_entry (e : ParamEntry) (he : e.wf) (hp : e.type.parseable) :
    VyperParser.parseParamOne (renderParamEntry e) = .ok (expectedParam e) := by
  obtain ⟨hn, hty⟩ := he
  obtain ⟨name, ty⟩ := e
  have hnameStrip : pyStrip name = name := pyStrip_word name hn.2
  cases ty with
  | scalar t =>
    have ht : wordText t := by simpa [ParamTypeText.wf] using hty
    obtain ⟨hlen, hpre⟩ : 2 ≤ t.length ∧ "DynArray".data.isPrefixOf t = false := by
      simpa [ParamTypeText.parseable] using hp
    have hsplit : pySplit ':' (renderParamEntry ⟨name, .scalar t⟩) = [name, ' ' :: t] := by
      rw [show renderParamEntry ⟨name, .scalar t⟩ = name ++ ':' :: (' ' :: t) from rfl]
      rw [pySplit_append_sep ':' name _ (word_not_mem name hn.2 ':' (by decide))]
      rw [pySplit_no_sep ':' _ (by
        intro hm
        rcases List.mem_cons.1 hm with hm | hm
        · exact absurd hm (by decide)
        · exact word_not_mem t ht.2 ':' (by decide) hm)]
    have hts : pyStrip (' ' :: t) = t := by
      rw [pyStrip_cons_space, pyStrip_word t ht.2]
    obtain ⟨c0, c1, t2, rfl⟩ : ∃ c0 c1 t2, t = c0 :: c1 :: t2 := by
      cases t with
      | nil => simp at hlen
      | cons c0 t1 =>
        cases t1 with
        | nil => simp at hlen
        | cons c1 t2 => exact ⟨c0, c1, t2, rfl⟩
    unfold VyperParser.parseParamOne
    rw [hsplit]
    dsimp only
    rw [hts]
    rw [show (c0 :: c1 :: t2).get? 1 = some c1 from rfl]
    dsimp only
    rw [if_neg (show ¬(c1 = '(') from by
      intro heq
      have hw := ht.2 c1 (by simp)
      subst heq
      exact absurd hw (by decide))]
    unfold Parameter.resolveType
    rw [hpre]
    simp only [Bool.false_eq_true, if_false]
    cases hvv : validType (c0 :: c1 :: t2)
    · simp only [Bool.false_eq_true, if_false]
      dsimp only [Except.map]
      rw [hnameStrip]
      rfl
    · simp only [if_true]
      dsimp only [Except.map]
      rw [hnameStrip]
      rfl
  | dyn el b =>
    have hty' : wordText el ∧ wordText b := by simpa [ParamTypeText.wf] using hty
    obtain ⟨hel, hb⟩ := hty'
    have hcolon : ':' ∉ renderParamType (.dyn el b) := by
      unfold renderParamType
      intro hm
      rcases List.mem_append.1 hm with hm | hm
      · exact absurd hm (by decide)
      rcases List.mem_append.1 hm with hm | hm
      · exact word_not_mem el hel.2 ':' (by decide) hm
      rcases List.mem_cons.1 hm with hm | hm
      · exact absurd hm (by decide)
      rcases List.mem_cons.1 hm with hm | hm
      · exact absurd hm (by decide)
      rcases List.mem_append.1 hm with hm | hm
      · exact word_not_mem b hb.2 ':' (by decide) hm
      · exact absurd hm (by decide)
    have hsplit : pySplit ':' (renderParamEntry ⟨name, .dyn el b⟩)
        = [name, ' ' :: renderParamType (.dyn el b)] := by
      rw [show renderParamEntry ⟨name, .dyn el b⟩
          = name ++ ':' :: (' ' :: renderParamType (.dyn el b)) from rfl]
      rw [pySplit_append_sep ':' name _ (word_not_mem name hn.2 ':' (by decide))]
      rw [pySplit_no_sep ':' _ (by
        intro hm
        rcases List.mem_cons.1 hm with hm | hm
        · exact absurd hm (by decide)
        · exact hcolon hm)]
    have hts : pyStrip (' ' :: renderParamType (.dyn el b)) = renderParamType (.dyn el b) := by
      rw [pyStrip_cons_space]
      apply pyStrip_eq_self
      · intro c hc
        rw [show (renderParamType (.dyn el b)).head? = some 'D' from rfl] at hc
        injection hc with hc
        subst hc
        decide
      · intro c hc
        rw [show renderParamType (.dyn el b)
              = ("DynArray[".data ++ el ++ ',' :: ' ' :: b) ++ [']'] from by
            simp [renderParamType],
          List.getLast?_concat] at hc
        injection hc with hc
        subst hc
        decide
    unfold VyperParser.parseParamOne
    rw [hsplit]
    dsimp only
    rw [hts]
    rw [show (renderParamType (.dyn el b)).get? 1 = some 'y' from rfl]
    dsimp only
    rw [if_neg (show ¬('y' = '(') from by decide)]
    rw [show renderParamType (.dyn el b)
        = "DynArray[".data ++ el ++ ',' :: (' ' :: b) ++ "]".data from by
      simp [renderParamType]]
    rw [resolveType_dyn el (' ' :: b)
      (word_not_mem el hel.2 '[' (by decide))
      (word_not_mem el hel.2 ',' (by decide))
      (by
        intro hm
        rcases List.mem_cons.1 hm with hm | hm
        · exact absurd hm (by decide)
        · exact word_not_mem b hb.2 '[' (by decide) hm)
      (by
        intro hm
        rcases List.mem_cons.1 hm with hm | hm
        · exact absurd hm (by decide)
        · exact word_not_mem b hb.2 ',' (by decide) hm)]
    rw [expectedParamBound_cons_space]
    dsimp only [Except.map]
    rw [hnameStrip]
    rfl

theorem exceptMapM_parse_entries (l : List ParamEntry) (hwf : ∀ e ∈ l, e.wf)
    (hp : ∀ e ∈ l, e.type.parseable) :
    exceptMapM VyperParser.parseParamOne (l.map renderParamEntry)
      = .ok (l.map expectedParam) := by
  induction l with
  | nil => rfl
  | cons e l ih =>
    rw [List.map_cons, List.map_cons]
    simp only [exceptMapM]
    rw [parseParamOne_entry e (hwf e (List.mem_cons_self e l)) (hp e (List.mem_cons_self e l))]
    rw [ih (fun x hx => hwf x (List.mem_cons_of_mem e hx))
      (fun x hx => hp x (List.mem_cons_of_mem e hx))]
    rfl

/-- `_parse_params` on a one-character type text raises `IndexError` at
`type_str[1]`. -/
theorem parseParamOne_singleton (nm t : Text) (hn : wordText nm) (ht : wordText t)
    (hlen : t.length = 1) :
    VyperParser.parseParamOne (renderParamEntry ⟨nm, .scalar t⟩) = .error .indexError := by
  obtain ⟨c0, rfl⟩ : ∃ c0, t = [c0] := by
    cases t with
    | nil => simp at hlen
    | cons a as =>
      cases as with
      | nil => exact ⟨a, rfl⟩
      | cons b bs => simp at hlen
  have hsplit : pySplit ':' (renderParamEntry ⟨nm, .scalar [c0]⟩) = [nm, [' ', c0]] := by
    rw [show renderParamEntry ⟨nm, .scalar [c0]⟩ = nm ++ ':' :: [' ', c0] from rfl]
    rw [pySplit_append_sep ':' nm _ (word_not_mem nm hn.2 ':' (by decide))]
    rw [pySplit_no_sep ':' _ (by
      intro hm
      rcases List.mem_cons.1 hm with hm | hm
      · exact absurd hm (by decide)
      rcases List.mem_cons.1 hm with hm | hm
      · exact word_not_mem [c0] ht.2 ':' (by decide) (hm ▸ List.mem_cons_self c0 [])
      · cases hm)]
  have hts : pyStrip [' ', c0] = [c0] := by
    rw [show ([' ', c0] : Text) = ' ' :: [c0] from rfl, pyStrip_cons_space,
      pyStrip_word [c0] ht.2]
  unfold VyperParser.parseParamOne
  rw [hsplit]
  dsimp only
  rw [hts]
  rfl

/-! ## Claim C7 -/

/-- C7: parameter-list parsing splits only on commas outside brackets: for
every well-formed parameter list containing a dynamic-array entry whose
brackets enclose a comma, the number of extracted parameters equals the
number of top-level `name: type` entries, and each dynamic-array parameter
keeps its full bracketed type (element and bound both preserved in the
resolved `DynArray`). -/
theorem claim_C7_param_split (es : List ParamEntry)
    (hwf : ∀ e ∈ es, e.wf) (hp : ∀ e ∈ es, e.type.parseable)
    (hdyn : ∃ e ∈ es, ∃ el b, e.type = .dyn el b) :
    VyperParser.parseParams (renderParamList es) = .ok (es.map expectedParam)
      ∧ (es.map expectedParam).length = es.length := by
  refine ⟨?_, by simp⟩
  unfold VyperParser.parseParams
  cases es with
  | nil => rfl
  | cons e es' =>
    rw [isEmpty_eq_false_of_ne_nil _
      (renderParamList_ne_nil e es' (hwf e (List.mem_cons_self e es')))]
    simp only [Bool.false_eq_true, if_false]
    rw [pyFinditer_render _ hwf]
    exact exceptMapM_parse_entries _ hwf hp

/-- C7 witness: `a: DynArray[uint256, 100], b: bool` yields exactly two
parameters, the first keeping its full dynamic-array type. -/
theorem claim_C7_param_split_witness :
    VyperParser.parseParams "a: DynArray[uint256, 100], b: bool".data
        = .ok [⟨"a".data, .dynArray "uint256".data (.inl 100)⟩, ⟨"b".data, .str "bool".data⟩]
      ∧ ([⟨"a".data, .dynArray "uint256".data (.inl 100)⟩,
          ⟨"b".data, .str "bool".data⟩] : List Parameter).length = 2 := by
  have h := claim_C7_param_split
    [⟨"a".data, .dyn "uint256".data "100".data⟩, ⟨"b".data, .scalar "bool".data⟩]
    (by decide) (by decide)
    ⟨⟨"a".data, .dyn "uint256".data "100".data⟩, by decide, "uint256".data, "100".data, rfl⟩
  refine ⟨?_, rfl⟩
  have h1 := h.1
  rw [show VyperParser.parseParams (renderParamList
      [⟨"a".data, .dyn "uint256".data "100".data⟩, ⟨"b".data, .scalar "bool".data⟩])
      = VyperParser.parseParams "a: DynArray[uint256, 100], b: bool".data from rfl] at h1
  rw [h1]
  rfl

/-! ## Claim C9 -/

/-- C9: a parameter whose declared type text is a single character makes
`_parse_params` index `type_str[1]` and raise `IndexError`, aborting the
whole parameter list: no parameter of the list (neither the offending one
nor its siblings) is produced. -/
theorem claim_C9_single_char_type (es₁ es₂ : List ParamEntry) (nm t : Text)
    (hwf : ∀ e ∈ es₁ ++ ⟨nm, .scalar t⟩ :: es₂, e.wf)
    (hp1 : ∀ e ∈ es₁, e.type.parseable)
    (hlen : t.length = 1) :
    VyperParser.parseParams (renderParamList (es₁ ++ ⟨nm, .scalar t⟩ :: es₂))
      = .error .indexError := by
  have hbadwf : (⟨nm, .scalar t⟩ : ParamEntry).wf := hwf _ (by simp)
  unfold VyperParser.parseParams
  have hne : renderParamList (es₁ ++ ⟨nm, .scalar t⟩ :: es₂) ≠ [] := by
    cases es₁ with
    | nil => exact renderParamList_ne_nil _ _ hbadwf
    | cons a as => exact renderParamList_ne_nil _ _ (hwf a (by simp))
  rw [isEmpty_eq_false_of_ne_nil _ hne]
  simp only [Bool.false_eq_true, if_false]
  rw [pyFinditer_render _ hwf, List.map_append, List.map_cons]
  apply exceptMapM_append_error
  · intro a ha
    obtain ⟨x, hx, rfl⟩ := List.mem_map.1 ha
    exact ⟨expectedParam x,
      parseParamOne_entry x (hwf x (List.mem_append_left _ hx)) (hp1 x hx)⟩
  · exact parseParamOne_singleton nm t hbadwf.1
      (by simpa [ParamTypeText.wf] using hbadwf.2) hlen

/-- C9 witness: `a: uint256, x: T, b: bool` aborts with `IndexError`. -/
theorem claim_C9_single_char_type_witness :
    VyperParser.parseParams "a: uint256, x: T, b: bool".data = .error .indexError := by
  have h := claim_C9_single_char_type
    [⟨"a".data, .scalar "uint256".data⟩] [⟨"b".data, .scalar "bool".data⟩]
    "x".data "T".data (by decide) (by decide) (by decide)
  rw [show VyperParser.parseParams (renderParamList
      ([⟨"a".data, .scalar "uint256".data⟩]
        ++ ⟨"x".data, .scalar "T".data⟩ :: [⟨"b".data, .scalar "bool".data⟩]))
      = VyperParser.parseParams "a: uint256, x: T, b: bool".data from rfl] at h
  exact h

/-! ## Claim C1 -/

/-- C1: false of the code — a file whose text contains a well-formed
`event Name(...)` declaration (one that `EVENT_PATTERN` matches) does not
yield a Contract at all: `_extract_events` is a `@staticmethod` whose body
reads the unbound name `self`, so it raises `NameError` on the first match
and `_parse_contract` aborts for the whole file. -/
theorem claim_C1_event_extraction_raises :
    VyperParser.extractEvents "event Transfer(sender: address)".data = .error .nameError := rfl

/-! ## Claim C2 -/

/-- C2 counterexample: the well-formed parenthesized type list
`(DynArray[uint256, 5], bool)` has two top-level comma-separated elements,
but `Function.__post_init__` splits on every comma (`.split(",")` with no
bracket tracking), so the resulting Tuple has length 3. -/
theorem claim_C2_counterexample :
    (Function.resolveReturn "(DynArray[uint256, 5], bool)".data).1
        = .tup ["DynArray[uint256".data, "5]".data, "bool".data]
      ∧ ["DynArray[uint256".data, "5]".data, "bool".data].length = 3
      ∧ specTopLevelElementCount "DynArray[uint256, 5], bool".data = 2 :=
  ⟨rfl, rfl, rfl⟩

/-- C2 (amended): for every parenthesized return-type text, the length of
the resulting Tuple equals the number of ALL commas of the inner text plus
one — commas nested inside brackets are counted as separators too — and the
empty Tuple has length 0. -/
theorem claim_C2_tuple_resolution_length (inner : Text) :
    (Function.resolveReturn ('(' :: (inner ++ [')']))).1
        = .tup (Tuple.postInit (pySplit ',' inner))
      ∧ (Tuple.postInit (pySplit ',' inner)).length = inner.count ',' + 1
      ∧ (Tuple.postInit ([] : List Text)).length = 0 := by
  refine ⟨?_, ?_, rfl⟩
  · have h2 : (inner ++ [')']).dropLast = inner := by simp
    simp [Function.resolveReturn, List.isPrefixOf, h2]
  · simp [Tuple.postInit, length_pySplit]

/-! ## Claim C6 -/

/-- C6 counterexample: `DynArrayFoo` is a type name outside
`VALID_VYPER_TYPES`, yet resolving it is not a mere warning: it takes the
`startswith("DynArray")` branch and fails its `assert` (an
`AssertionError`), i.e. the name is rejected. -/
theorem claim_C6_counterexample :
    "DynArrayFoo".data ∉ VALID_VYPER_TYPES
      ∧ Parameter.resolveType "DynArrayFoo".data = .error .assertionError :=
  ⟨by decide, rfl⟩

/-- C6 (amended): every name of the fixed scalar vocabulary resolves to
itself as a string type with no warning; a name outside the vocabulary is
flagged with a warning but still accepted, provided it does not begin with
the dynamic-array tag `DynArray` (such names take the dynamic-array branch
and can be rejected by its assertion). -/
theorem claim_C6_scalar_vocabulary :
    (∀ t ∈ VALID_VYPER_TYPES, Parameter.resolveType t = .ok (.str t, false))
      ∧ (∀ t : Text, t ∉ VALID_VYPER_TYPES → "DynArray".data.isPrefixOf t = false →
          Parameter.resolveType t = .ok (.str t, true)) := by
  constructor
  · decide
  · intro t hmem hpre
    have hv : validType t = false := by simpa [validType] using hmem
    simp [Parameter.resolveType, hpre, hv]

/-- C6 witness. -/
theorem claim_C6_scalar_vocabulary_witness :
    Parameter.resolveType "uint256".data = .ok (.str "uint256".data, false)
      ∧ Parameter.resolveType "foo".data = .ok (.str "foo".data, true) :=
  ⟨claim_C6_scalar_vocabulary.1 "uint256".data (by decide),
   claim_C6_scalar_vocabulary.2 "foo".data (by decide) (by decide)⟩

/-! ## Claim C5 -/

/-- C5: resolving a dynamic-array type text `DynArray[T,b]` (where `T` is a
valid scalar name and neither `T` nor the bound text `b` contains a bracket
or comma) yields `DynArray` with element `T`, no warning, and: the integer
value of the bound when the bound text parses as a Python integer literal,
otherwise a constant reference carrying only the stripped bound text as its
name (`type` and `value` are `None`). -/
theorem claim_C5_dynarray_resolution (T b : Text)
    (hT1 : '[' ∉ T) (hT2 : ',' ∉ T) (hb1 : '[' ∉ b) (hb2 : ',' ∉ b)
    (hTv : T ∈ VALID_VYPER_TYPES) :
    (∀ n : Int, pyInt b = some n →
        Parameter.resolveType ("DynArray[".data ++ T ++ ',' :: b ++ "]".data)
          = .ok (.dynArray T (.inl n), false))
      ∧ (pyInt b = none →
        Parameter.resolveType ("DynArray[".data ++ T ++ ',' :: b ++ "]".data)
          = .ok (.dynArray T (.inr ⟨pyStrip b, none, none⟩), false)) := by
  have hshape : "DynArray[".data ++ T ++ ',' :: b ++ "]".data
      = ("DynArray[".data ++ T ++ ',' :: b) ++ [']'] := by
    simp
  have hpre : "DynArray".data.isPrefixOf ("DynArray[".data ++ T ++ ',' :: b ++ "]".data)
      = true := by
    have : "DynArray[".data ++ T ++ ',' :: b ++ "]".data
        = "DynArray".data ++ ('[' :: (T ++ ',' :: b ++ "]".data)) := by simp
    rw [this]
    exact isPrefixOf_append_self _ _
  have hend : pyEndsWith "]".data ("DynArray[".data ++ T ++ ',' :: b ++ "]".data) = true := by
    rw [hshape]
    exact pyEndsWith_concat ']' _
  have hdrop : ("DynArray[".data ++ T ++ ',' :: b ++ "]".data).dropLast
      = "DynArray[".data ++ T ++ ',' :: b := by
    rw [hshape]
    exact List.dropLast_concat
  have hsplitBr : pySplit '[' ("DynArray[".data ++ T ++ ',' :: b)
      = ["DynArray".data, T ++ ',' :: b] := by
    have harr : "DynArray[".data ++ T ++ ',' :: b
        = "DynArray".data ++ '[' :: (T ++ ',' :: b) := by simp
    rw [harr, pySplit_append_sep '[' _ _ (by decide)]
    rw [pySplit_no_sep '[' _ (by
      intro hmem
      rcases List.mem_append.1 hmem with hmem | hmem
      · exact hT1 hmem
      · rcases List.mem_cons.1 hmem with hmem | hmem
        · exact absurd hmem (by decide)
        · exact hb1 hmem)]
  have hsplitComma : pySplit ',' (T ++ ',' :: b) = [T, b] := by
    rw [pySplit_append_sep ',' _ _ hT2, pySplit_no_sep ',' _ hb2]
  have hw : validType T = true := validType_eq_true T hTv
  have hcommon : ∀ z : Int ⊕ Constant,
      (Parameter.resolveType ("DynArray[".data ++ T ++ ',' :: b ++ "]".data)
          = .ok (.dynArray T z, false))
        = ((match pyInt b with
            | some n => Except.ok (VyType.dynArray T (Sum.inl n), !validType T)
            | none => Except.ok (VyType.dynArray T
                (Sum.inr ⟨pyStrip b, none, none⟩), !validType T)
            : Except PyError (VyType × Bool))
          = .ok (.dynArray T z, false)) := by
    intro z
    unfold Parameter.resolveType
    rw [hpre, hend, hdrop, hsplitBr]
    simp only [Bool.not_true, Bool.false_eq_true, if_false, if_true, List.get?_cons_succ,
      List.get?_cons_zero, hsplitComma]
  constructor
  · intro n hn
    rw [hcommon, hn, hw]
    rfl
  · intro hn
    rw [hcommon, hn, hw]
    rfl

/-- C5 witness: both branches at concrete inputs — a literal bound
(`DynArray[uint256,100]`) and a named constant bound
(`DynArray[uint256,MAX_LEN]`). -/
theorem claim_C5_dynarray_resolution_witness :
    Parameter.resolveType "DynArray[uint256,100]".data
        = .ok (.dynArray "uint256".data (.inl 100), false)
      ∧ Parameter.resolveType "DynArray[uint256,MAX_LEN]".data
        = .ok (.dynArray "uint256".data (.inr ⟨"MAX_LEN".data, none, none⟩), false) := by
  constructor
  · exact (claim_C5_dynarray_resolution "uint256".data "100".data (by decide) (by decide)
      (by decide) (by decide) (by decide)).1 100 (by decide)
  · exact (claim_C5_dynarray_resolution "uint256".data "MAX_LEN".data (by decide) (by decide)
      (by decide) (by decide) (by decide)).2 (by decide)

theorem head_all_elim (t : Text) (h : (t.head?.all fun c => !pyIsSpace c) = true) :
    ∀ c, t.head? = some c → pyIsSpace c = false := by
  intro c hc
  rw [hc] at h
  simpa using h

theorem getLast_all_elim (t : Text) (h : (t.getLast?.all fun c => !pyIsSpace c) = true) :
    ∀ c, t.getLast? = some c → pyIsSpace c = false := by
  intro c hc
  rw [hc] at h
  simpa using h

/-- One event-field line `name: u` (with a single space after the colon, a
word-character name, and a type text `u` with no colon and no surrounding
whitespace) reaches the `indexed` test of `_parse_event_params` with exactly
`name` and `u`. -/
theorem parseEventLine_core (name u : Text) (hn : name ≠ [])
    (hnw : ∀ c ∈ name, isWordChar c = true)
    (hu1 : ':' ∉ u) (hune : u ≠ [])
    (huh : ∀ c, u.head? = some c → pyIsSpace c = false)
    (hul : ∀ c, u.getLast? = some c → pyIsSpace c = false) :
    VyperParser.parseEventParamLine (name ++ ':' :: ' ' :: u)
      = if containsSub "indexed".data u then
          (if "indexed(".data.isPrefixOf u && pyEndsWith ")".data u then
            .ok ⟨name, (u.drop 8).dropLast, true⟩
          else .error .assertionError)
        else .ok ⟨name, u, false⟩ := by
  have hstrip : pyStrip (name ++ ':' :: ' ' :: u) = name ++ ':' :: ' ' :: u := by
    apply pyStrip_eq_self
    · intro c hc
      cases name with
      | nil => exact absurd rfl hn
      | cons a as =>
        simp only [List.cons_append, List.head?_cons, Option.some.injEq] at hc
        subst hc
        exact word_not_space a (hnw a (List.mem_cons_self a as))
    · intro c hc
      rw [show name ++ ':' :: ' ' :: u = (name ++ [':', ' ']) ++ u by simp] at hc
      rw [List.getLast?_append_of_ne_nil (name ++ [':', ' ']) hune] at hc
      exact hul c hc
  have hsplit : pySplit ':' (name ++ ':' :: ' ' :: u) = [name, ' ' :: u] := by
    rw [pySplit_append_sep ':' name _ (word_not_mem name hnw ':' (by decide))]
    rw [pySplit_no_sep ':' _ (by
      intro hm
      rcases List.mem_cons.1 hm with hm | hm
      · exact absurd hm (by decide)
      · exact hu1 hm)]
  have ht1 : pyStrip (' ' :: u) = u := by
    rw [pyStrip_cons_space, pyStrip_eq_self u huh hul]
  unfold VyperParser.parseEventParamLine
  rw [hstrip, hsplit]
  simp only [ht1, pyStrip_word name hnw]

/-! ## Claim C8 -/

/-- C8 counterexample: the event-field line `x: reindexed` has no
`indexed(...)` wrapper, yet it is not recorded with `indexed = false`: the
substring test `"indexed" in type` is true for `reindexed`, so the `assert`
fails and field parsing raises `AssertionError`. -/
theorem claim_C8_counterexample :
    VyperParser.parseEventParams "x: reindexed".data = .error .assertionError := rfl

/-- C8 (amended): an event field whose type text is wrapped as `indexed(T)`
is recorded with `indexed = true` and type exactly `T`; a field whose type
text does not contain the substring `indexed` at all is recorded with
`indexed = false` and its type text unchanged (a wrapper-less type that
merely contains `indexed` as a substring instead fails the assertion). -/
theorem claim_C8_indexed_wrapper :
    (∀ name T : Text, name ≠ [] → (∀ c ∈ name, isWordChar c = true) →
        ':' ∉ T → '\n' ∉ T →
        VyperParser.parseEventParams (name ++ ':' :: ' ' :: ("indexed(".data ++ T ++ [')']))
          = .ok [⟨name, T, true⟩])
      ∧ (∀ name t : Text, name ≠ [] → (∀ c ∈ name, isWordChar c = true) →
        ':' ∉ t → '\n' ∉ t → t ≠ [] →
        ((t.head?.all fun c => !pyIsSpace c) = true) →
        ((t.getLast?.all fun c => !pyIsSpace c) = true) →
        containsSub "indexed".data t = false →
        VyperParser.parseEventParams (name ++ ':' :: ' ' :: t) = .ok [⟨name, t, false⟩]) := by
  constructor
  · intro name T hn hnw hT1 hT2
    have hu1 : ':' ∉ "indexed(".data ++ T ++ [')'] := by
      intro hm
      rcases List.mem_append.1 hm with hm | hm
      · rcases List.mem_append.1 hm with hm | hm
        · exact absurd hm (by decide)
        · exact hT1 hm
      · exact absurd hm (by decide)
    have hune : "indexed(".data ++ T ++ [')'] ≠ [] := by simp
    have huh : ∀ c, ("indexed(".data ++ T ++ [')']).head? = some c → pyIsSpace c = false := by
      intro c hc
      simp only [List.cons_append, List.head?_cons, Option.some.injEq] at hc
      subst hc
      decide
    have hul : ∀ c, ("indexed(".data ++ T ++ [')']).getLast? = some c → pyIsSpace c = false := by
      intro c hc
      rw [show "indexed(".data ++ T ++ [')'] = ("indexed(".data ++ T) ++ [')'] by simp,
        List.getLast?_concat] at hc
      cases hc
      decide
    have hline : pySplit '\n' (name ++ ':' :: ' ' :: ("indexed(".data ++ T ++ [')']))
        = [name ++ ':' :: ' ' :: ("indexed(".data ++ T ++ [')'])] := by
      apply pySplit_no_sep
      intro hm
      rcases List.mem_append.1 hm with hm | hm
      · exact word_not_mem name hnw '\n' (by decide) hm
      rcases List.mem_cons.1 hm with hm | hm
      · exact absurd hm (by decide)
      rcases List.mem_cons.1 hm with hm | hm
      · exact absurd hm (by decide)
      rcases List.mem_append.1 hm with hm | hm
      · rcases List.mem_append.1 hm with hm | hm
        · exact absurd hm (by decide)
        · exact hT2 hm
      · exact absurd hm (by decide)
    have hcore := parseEventLine_core name _ hn hnw hu1 hune huh hul
    have hpre : "indexed(".data.isPrefixOf ("indexed(".data ++ T ++ [')']) = true := by
      rw [show "indexed(".data ++ T ++ [')'] = "indexed(".data ++ (T ++ [')']) by simp]
      exact isPrefixOf_append_self _ _
    have hsub : containsSub "indexed".data ("indexed(".data ++ T ++ [')']) = true := by
      apply containsSub_of_isPrefixOf
      rw [show "indexed(".data ++ T ++ [')'] = "indexed".data ++ ('(' :: (T ++ [')'])) by simp]
      exact isPrefixOf_append_self _ _
    have hend : pyEndsWith ")".data ("indexed(".data ++ T ++ [')']) = true := by
      rw [show "indexed(".data ++ T ++ [')'] = ("indexed(".data ++ T) ++ [')'] by simp]
      exact pyEndsWith_concat ')' _
    have hdrop : (("indexed(".data ++ T ++ [')']).drop 8).dropLast = T := by
      rw [show "indexed(".data ++ T ++ [')'] = "indexed(".data ++ (T ++ [')']) by simp]
      rw [show (8 : Nat) = "indexed(".data.length from rfl, List.drop_left]
      exact List.dropLast_concat
    have hval : VyperParser.parseEventParamLine
        (name ++ ':' :: ' ' :: ("indexed(".data ++ T ++ [')']))
        = .ok ⟨name, T, true⟩ := by
      rw [hcore]
      simp only [hsub, hpre, hend, Bool.and_self, if_true, hdrop]
    unfold VyperParser.parseEventParams
    rw [hline]
    simp only [exceptMapM, hval]
    rfl
  · intro name t hn hnw ht1 ht2 htne hth htl hsub
    have huh := head_all_elim t hth
    have hul := getLast_all_elim t htl
    have hline : pySplit '\n' (name ++ ':' :: ' ' :: t)
        = [name ++ ':' :: ' ' :: t] := by
      apply pySplit_no_sep
      intro hm
      rcases List.mem_append.1 hm with hm | hm
      · exact word_not_mem name hnw '\n' (by decide) hm
      rcases List.mem_cons.1 hm with hm | hm
      · exact absurd hm (by decide)
      rcases List.mem_cons.1 hm with hm | hm
      · exact absurd hm (by decide)
      · exact ht2 hm
    have hval : VyperParser.parseEventParamLine (name ++ ':' :: ' ' :: t)
        = .ok ⟨name, t, false⟩ := by
      rw [parseEventLine_core name t hn hnw ht1 htne huh hul]
      simp only [hsub, Bool.false_eq_true, if_false]
    unfold VyperParser.parseEventParams
    rw [hline]
    simp only [exceptMapM, hval]
    rfl

/-- C8 witness. -/
theorem claim_C8_indexed_wrapper_witness :
    VyperParser.parseEventParams "sender: indexed(address)".data
        = .ok [⟨"sender".data, "address".data, true⟩]
      ∧ VyperParser.parseEventParams "value: uint256".data
        = .ok [⟨"value".data, "uint256".data, false⟩] := by
  constructor
  · exact claim_C8_indexed_wrapper.1 "sender".data "address".data (by decide) (by decide)
      (by decide) (by decide)
  · exact claim_C8_indexed_wrapper.2 "value".data "uint256".data (by decide) (by decide)
      (by decide) (by decide) (by decide) (by decide) (by decide) (by decide)

/-! ## Claim C3 -/

/-- C3: function extraction partitions the matched functions into the
external list and the internal list, each in source (match) order, and the
generator renders the external section before the internal one, so in the
assembled output every external function precedes every internal one. -/
theorem claim_C3_function_partition (ms : List VyperParser.FunctionMatch)
    (h : ∀ m ∈ ms, ∃ f, VyperParser.mkFunction m = .ok f) :
    VyperParser.extractFunctions ms = .ok
        (ms.filterMap fun m => if pyStrip m.decorator = "external".data
            then (VyperParser.mkFunction m).toOption else none,
         ms.filterMap fun m => if pyStrip m.decorator = "external".data
            then none else (VyperParser.mkFunction m).toOption)
      ∧ ∀ ext intl : List Function, SphinxGenerator.functionDocsOrder ext intl = ext ++ intl := by
  refine ⟨?_, fun ext intl => rfl⟩
  induction ms with
  | nil => rfl
  | cons m ms ih =>
    obtain ⟨f, hf⟩ := h m (List.mem_cons_self m ms)
    have ih' := ih fun m' hm' => h m' (List.mem_cons_of_mem m hm')
    simp only [VyperParser.extractFunctions, hf, ih', List.filterMap_cons]
    by_cases hd : pyStrip m.decorator = "external".data
    · simp [hd, hf, Except.toOption]
    · simp [hd, hf, Except.toOption]

/-- C3 witness. -/
theorem claim_C3_function_partition_witness :
    VyperParser.extractFunctions
        [⟨"external".data, "transfer".data, [], none, none⟩,
         ⟨"internal".data, "helper".data, [], none, none⟩]
      = .ok ([⟨"transfer".data, [], none, none⟩], [⟨"helper".data, [], none, none⟩]) := by
  have h := (claim_C3_function_partition
      [⟨"external".data, "transfer".data, [], none, none⟩,
       ⟨"internal".data, "helper".data, [], none, none⟩]
      (by
        intro m hm
        rcases List.mem_cons.1 hm with rfl | hm
        · exact ⟨_, rfl⟩
        rcases List.mem_cons.1 hm with rfl | hm
        · exact ⟨_, rfl⟩
        · cases hm)).1
  rw [h]
  rfl

/-! ## Claim C4 -/

/-- C4: the scope filter of the module-level-variable extractor: (1) a
non-blank, non-marker line all of whose predecessors are non-marker lines is
always kept as contract-level; (2) a function marker line followed by a
contiguous block of non-blank lines contributes nothing to the kept lines —
the filter's output over that region equals the output over the remaining
lines with the inside-a-function flag set. -/
theorem claim_C4_scope_filter :
    (∀ pre : List Text, ∀ l : Text, ∀ post : List Text,
        (∀ x ∈ pre, VyperParser.isFunctionMarkerLine (pyStrip x) = false) →
        VyperParser.isFunctionMarkerLine (pyStrip l) = false →
        pyStrip l ≠ [] →
        pyStrip l ∈ VyperParser.contractLevelLines false (pre ++ l :: post))
      ∧ (∀ (flag : Bool) (m : Text) (body rest : List Text),
        VyperParser.isFunctionMarkerLine (pyStrip m) = true →
        (∀ x ∈ body, pyStrip x ≠ []) →
        VyperParser.contractLevelLines flag (m :: (body ++ rest))
          = VyperParser.contractLevelLines true rest) := by
  constructor
  · intro pre l post hpre hl hne
    induction pre with
    | nil =>
      simp only [List.nil_append, VyperParser.contractLevelLines, hl, if_false, hne]
      simp [hl, hne, List.isEmpty_iff]
    | cons x xs ih =>
      have hx := hpre x (List.mem_cons_self x xs)
      have ih' := ih fun y hy => hpre y (List.mem_cons_of_mem x hy)
      simp only [List.cons_append, VyperParser.contractLevelLines, hx, Bool.false_eq_true,
        if_false, ite_self, Bool.not_false, Bool.true_and, List.append_eq]
      by_cases hxe : List.isEmpty (pyStrip x) = true
      · simpa [hxe] using ih'
      · simp only [Bool.not_eq_true] at hxe
        simpa [hxe] using List.mem_cons_of_mem (pyStrip x) ih'
  · intro flag m body rest hm hbody
    simp only [VyperParser.contractLevelLines, hm, if_true]
    have : ∀ body' : List Text, (∀ x ∈ body', pyStrip x ≠ []) →
        VyperParser.contractLevelLines true (body' ++ rest)
          = VyperParser.contractLevelLines true rest := by
      intro body'
      induction body' with
      | nil => intro _; rfl
      | cons x xs ih =>
        intro hb
        have hx := hb x (List.mem_cons_self x xs)
        simp only [List.cons_append, VyperParser.contractLevelLines, List.isEmpty_iff, hx]
        by_cases hmx : VyperParser.isFunctionMarkerLine (pyStrip x) = true
        · simpa [hmx] using ih fun y hy => hb y (List.mem_cons_of_mem x hy)
        · simp only [Bool.not_eq_true] at hmx
          simpa [hmx, hx] using ih fun y hy => hb y (List.mem_cons_of_mem x hy)
    simp [this body hbody]

/-- C4 witness. -/
theorem claim_C4_scope_filter_witness :
    "owner: public(address)".data
        ∈ VyperParser.contractLevelLines false
            ["name: String".data, "owner: public(address)".data]
      ∧ VyperParser.contractLevelLines false ["@external".data, "    x: uint256".data] = [] := by
  constructor
  · exact claim_C4_scope_filter.1 ["name: String".data] "owner: public(address)".data []
      (by decide) (by decide) (by decide)
  · exact claim_C4_scope_filter.2 false "@external".data ["    x: uint256".data] []
      (by decide) (by decide)

/-! ## Claim C10 -/

/-- C10: evaluation of both extractors at the module-level constant
declaration `MAX_SUPPLY: constant(uint256) = 1000000`.  The variable
extractor does report it as a Variable typed with the literal string
`constant` — but with visibility `public`, not `private`: the code tests
`match.group(2)`, the whole alternation group of `VARIABLE_PATTERN`, which
participates (with nonempty text) in every match, so every extracted
variable is marked `public`. -/
theorem claim_C10_constant_reported_as_variable :
    VyperParser.extractVariables "MAX_SUPPLY: constant(uint256) = 1000000".data
        = [⟨"MAX_SUPPLY".data, "constant".data, "public".data⟩]
      ∧ VyperParser.extractConstants "MAX_SUPPLY: constant(uint256) = 1000000".data
        = [⟨"MAX_SUPPLY".data, some "uint256".data, some "1000000".data⟩] :=
  ⟨rfl, rfl⟩

end SphinxAutodocVyper

